import Mathlib

/-!
# Verification of the create2crunch salt miner (fourfourfourfour)

Shallow embedding of the repository's three source files:

* `src/score_address.rs` — the pure scoring function over the 40 nibbles of a
  20-byte address;
* `src/lib.rs` — the search loop (`gpu`), the 85-byte derivation message, the
  kernel-source constant substitution (`mk_kernel_src`), and the outbound
  HTTP payload;
* `src/main.rs` — the binary entry point (argument parsing only, out of scope
  for the claims considered here).

Machine integers are modelled as `Nat` with explicit `% 2^w` where overflow
matters (the `u32` nonce, the `u64` lane result, 64-bit keccak lanes).
Byte strings are `List Nat` with every element below 256.  Fallible code
(out-of-bounds slice indexing, which panics in Rust) is modelled with
`Option`.  The library routines the source calls — `tiny_keccak`'s
`Keccak::v256`, `u64::to_le_bytes`, `hex::encode`, and alloy's EIP-55
`Address` display — are embedded below from their published semantics, since
they are external dependencies of the repository.
-/

/-! ## Keccak-256 (embedding of `tiny_keccak::Keccak::v256`)

Keccak with rate 136 and the original 0x01 domain padding, exactly the
variant `Keccak::v256` implements and `gpu` uses to derive the address.
The 5×5 state of 64-bit lanes is a flat list of 25 `Nat`s (index `x + 5*y`),
each kept below `2^64` by explicit masking. -/

/-- Left-rotation of a 64-bit word, for a rotation amount `n ≤ 63`. -/
def rotl64 (x n : Nat) : Nat :=
  (x * 2 ^ n + x / 2 ^ (64 - n)) % 2 ^ 64

/-- Keccak θ step: column parities folded back into every lane. -/
def keccakTheta (s : List Nat) : List Nat :=
  let c := (List.range 5).map fun x =>
    s.getD x 0 ^^^ s.getD (x + 5) 0 ^^^ s.getD (x + 10) 0 ^^^
      s.getD (x + 15) 0 ^^^ s.getD (x + 20) 0
  let d := (List.range 5).map fun x =>
    c.getD ((x + 4) % 5) 0 ^^^ rotl64 (c.getD ((x + 1) % 5) 0) 1
  (List.range 25).map fun i => s.getD i 0 ^^^ d.getD (i % 5) 0

/-- Combined ρ and π steps as a direct table: entry `j` of the table is the
source lane index and rotation amount for target lane `j`. -/
def rhoPiTable : List (Nat × Nat) :=
  [(0, 0), (6, 44), (12, 43), (18, 21), (24, 14),
   (3, 28), (9, 20), (10, 3), (16, 45), (22, 61),
   (1, 1), (7, 6), (13, 25), (19, 8), (20, 18),
   (4, 27), (5, 36), (11, 10), (17, 15), (23, 56),
   (2, 62), (8, 55), (14, 39), (15, 41), (21, 2)]

/-- Keccak ρ+π step. -/
def keccakRhoPi (s : List Nat) : List Nat :=
  rhoPiTable.map fun p => rotl64 (s.getD p.1 0) p.2

/-- Keccak χ step: `a ^ (~b & c)` along each row. -/
def keccakChi (s : List Nat) : List Nat :=
  (List.range 25).map fun i =>
    let row := 5 * (i / 5)
    s.getD i 0 ^^^
      ((s.getD (row + (i + 1) % 5) 0 ^^^ (2 ^ 64 - 1)) &&&
        s.getD (row + (i + 2) % 5) 0)

/-- The 24 keccak-f round constants. -/
def keccakRC : List Nat :=
  [0x0000000000000001, 0x0000000000008082, 0x800000000000808a,
   0x8000000080008000, 0x000000000000808b, 0x0000000080000001,
   0x8000000080008081, 0x8000000000008009, 0x000000000000008a,
   0x0000000000000088, 0x0000000080008009, 0x000000008000000a,
   0x000000008000808b, 0x800000000000008b, 0x8000000000008089,
   0x8000000000008003, 0x8000000000008002, 0x8000000000000080,
   0x000000000000800a, 0x800000008000000a, 0x8000000080008081,
   0x8000000000008080, 0x0000000080000001, 0x8000000080008008]

/-- One keccak-f round: θ, ρ+π, χ, then ι (xor the round constant into
lane 0). -/
def keccakRound (s : List Nat) (rc : Nat) : List Nat :=
  let t := keccakChi (keccakRhoPi (keccakTheta s))
  t.set 0 (t.getD 0 0 ^^^ rc)

/-- The full 24-round keccak-f[1600] permutation. -/
def keccakF (s : List Nat) : List Nat :=
  keccakRC.foldl keccakRound s

/-- The padded message split into rate-sized (136-byte) blocks; the fuel
argument (instantiated with the list length, which strictly bounds the
number of nonempty chunks) keeps the recursion structural. -/
def keccakBlocksGo : Nat → List Nat → List (List Nat)
  | 0, _ => []
  | fuel + 1, l => if l = [] then [] else l.take 136 :: keccakBlocksGo fuel (l.drop 136)

/-- The padded message split into rate-sized (136-byte) blocks. -/
def keccakBlocks (l : List Nat) : List (List Nat) :=
  keccakBlocksGo l.length l

/-- Keccak padding for rate 136 with the 0x01 domain byte: `0x01`, zeros, and
a final `0x80` (merged into a single `0x81` when only one byte is free). -/
def keccakPad (len : Nat) : List Nat :=
  let r := 136 - len % 136
  if r = 1 then [0x81] else 0x01 :: (List.replicate (r - 2) 0 ++ [0x80])

/-- Absorb one 136-byte block: xor its 17 little-endian 64-bit words into the
low lanes and run the permutation. -/
def absorbBlock (st : List Nat) (block : List Nat) : List Nat :=
  let ws := (List.range 17).map fun i =>
    ((block.drop (8 * i)).take 8).foldr (fun b acc => acc * 256 + b) 0
  keccakF ((List.range 25).map fun i =>
    st.getD i 0 ^^^ (if i < 17 then ws.getD i 0 else 0))

/-- Keccak-256 of a byte string: absorb the padded message and squeeze the
first 32 bytes (little-endian within each 64-bit lane). -/
def keccak256 (msg : List Nat) : List Nat :=
  let st := (keccakBlocks (msg ++ keccakPad msg.length)).foldl absorbBlock
    (List.replicate 25 0)
  (List.range 32).map fun j => st.getD (j / 8) 0 / 2 ^ (8 * (j % 8)) % 256

/-! ## The scoring function (embedding of `src/score_address.rs`)

The source builds a fixed `[0u8; 40]` nibble array by indexed writes
(`nibbles[2*i]`, `nibbles[2*i+1]`), so an input longer than 20 bytes panics
on an out-of-bounds index; the write phase is therefore modelled with
`Option`, `none` standing for the panic. -/

/-- The nibbles (high nibble first) of a byte string. -/
def nibblesOf (l : List Nat) : List Nat :=
  l.bind fun b => [b / 16, b % 16]

/-- The indexed-write phase of `score_address`: starting from a nibble array,
write byte `i` of the input to positions `2*i` and `2*i+1`.  `none` models
the Rust panic when an index falls outside the array. -/
def writeNibbles (nibbles : List Nat) (i : Nat) : List Nat → Option (List Nat)
  | [] => some nibbles
  | b :: rest =>
    if 2 * i + 1 < nibbles.length then
      writeNibbles ((nibbles.set (2 * i) (b / 16)).set (2 * i + 1) (b % 16))
        (i + 1) rest
    else none

/-- Step 2/3 of `score_address`: scan the 5-nibble windows left to right, and
at the first window whose first four nibbles are all `4` add 40, plus 20 when
the window's fifth nibble is not `4`; later windows are not examined. -/
def fourBonus : List Nat → Int
  | a :: b :: c :: d :: e :: rest =>
    if [a, b, c, d] = ([4, 4, 4, 4] : List Nat) then
      40 + (if e ≠ 4 then 20 else 0)
    else fourBonus (b :: c :: d :: e :: rest)
  | _ => 0

/-- The scoring arithmetic of `score_address` over the filled nibble array:
10 per leading zero nibble, the window bonus, 20 when the last four nibbles
are all `4`, and 1 per `4` nibble anywhere. -/
def scoreNibbles (nibbles : List Nat) : Int :=
  let leading_zeros_count := (nibbles.takeWhile fun n => n == 0).length
  let total1 : Int := (leading_zeros_count * 10 : Nat)
  let total2 : Int := total1 + fourBonus nibbles
  let total3 : Int := total2 +
    (if 4 ≤ nibbles.length ∧
        nibbles.drop (nibbles.length - 4) = ([4, 4, 4, 4] : List Nat)
      then 20 else 0)
  total3 + ((nibbles.filter fun n => n == 4).length : Nat)

/-- `score_address` from `src/score_address.rs`: fill the fixed 40-nibble
array from the input bytes (panicking — `none` — when the input exceeds 20
bytes), then apply the scoring arithmetic. -/
def score_address (address : List Nat) : Option Int :=
  (writeNibbles (List.replicate 40 0) 0 address).map scoreNibbles

/-! ## Configuration and the salt codec (embedding of `src/lib.rs`)

`Config` keeps the three validated byte fields the search loop reads; the
fixed lengths of the Rust arrays (`[u8; 20]`, `[u8; 20]`, `[u8; 32]`) appear
as hypotheses on the theorems.  `solutionMessage` mirrors the sequence of
indexed slice writes building the 85-byte `solution_message`. -/

/-- The validated configuration fields used by `gpu` (device selector and
endpoint URL play no role in the claims below). -/
structure Config where
  factory_address : List Nat
  calling_address : List Nat
  init_code_hash : List Nat

/-- `u64::to_le_bytes`: the eight little-endian bytes of a 64-bit value. -/
def leBytes8 (x : Nat) : List Nat :=
  (List.range 8).map fun k => x / 2 ^ (8 * k) % 256

/-- `copy_from_slice` onto the subrange starting at `start`: the written
range replaces the same number of elements of the target. -/
def setRange (arr : List Nat) (start : Nat) (vals : List Nat) : List Nat :=
  arr.take start ++ vals ++ arr.drop (start + vals.length)

/-- The 85-byte `solution_message` built by `gpu`: a zeroed array, then the
control byte at 0, the factory address at 1..21, the caller address at
21..41, the run segment at 41..45, the little-endian lane result at 45..53,
and the init-code hash at 53..85. -/
def solutionMessage (cfg : Config) (salt : List Nat) (lane : Nat) : List Nat :=
  setRange (setRange (setRange (setRange (setRange
    ((List.replicate 85 0).set 0 0xff)
    1 cfg.factory_address)
    21 cfg.calling_address)
    41 salt)
    45 (leBytes8 lane))
    53 cfg.init_code_hash

/-- The candidate address: bytes 12..31 of the keccak-256 digest of the
solution message (`&res[12..]` in the source). -/
def derivedAddress (cfg : Config) (salt : List Nat) (lane : Nat) : List Nat :=
  (keccak256 (solutionMessage cfg salt lane)).drop 12

/-! ## Hex encoding and the outbound payload

`hex::encode` produces lowercase hex; alloy's `Address` display applies the
EIP-55 checksum: uppercase a hex letter whenever the matching nibble of the
keccak-256 digest of the lowercase hex ASCII is at least 8. -/

/-- The lowercase hex character of a nibble. -/
def hexCharLower (n : Nat) : Char :=
  if n < 10 then Char.ofNat (48 + n) else Char.ofNat (87 + n)

/-- `hex::encode`: lowercase hex, high nibble first. -/
def hexEncode (bytes : List Nat) : List Char :=
  bytes.bind fun b => [hexCharLower (b / 16), hexCharLower (b % 16)]

/-- Rust's `make_ascii_uppercase`: subtract 32 from a lowercase letter,
leave anything else (digits included) unchanged. -/
def asciiUpper (c : Char) : Char :=
  if 97 ≤ c.toNat ∧ c.toNat ≤ 122 then Char.ofNat (c.toNat - 32) else c

/-- Decode one hex character (either case); non-hex characters read as 0. -/
def hexDecodeChar (c : Char) : Nat :=
  if 48 ≤ c.toNat ∧ c.toNat ≤ 57 then c.toNat - 48
  else if 97 ≤ c.toNat ∧ c.toNat ≤ 102 then c.toNat - 87
  else if 65 ≤ c.toNat ∧ c.toNat ≤ 70 then c.toNat - 55
  else 0

/-- Decode a hex string two characters per byte. -/
def hexDecodePairs : List Char → List Nat
  | c1 :: c2 :: rest => (16 * hexDecodeChar c1 + hexDecodeChar c2) :: hexDecodePairs rest
  | _ => []

/-- alloy's `Address` display (EIP-55): hash the lowercase hex ASCII with
keccak-256 and uppercase each hex character whose nibble of the digest is at
least 8. -/
def checksumAddress (addr : List Nat) : List Char :=
  let low := hexEncode addr
  let digest := keccak256 (low.map Char.toNat)
  low.enum.map fun p =>
    if 8 ≤ (nibblesOf digest).getD p.1 0 then asciiUpper p.2 else p.2

/-- The outbound JSON payload fields built by `gpu` for a found solution. -/
structure Report where
  saltField : List Char
  addressField : List Char
  score : Int

/-- Build the payload: `salt` is `0x` ++ hex(caller) ++ hex(run segment) ++
hex(lane result little-endian), `address` is the checksummed display of the
derived address, `score` is `score_address` on the derived address. -/
def mkReport (cfg : Config) (salt : List Nat) (lane : Nat) : Report :=
  { saltField := ['0', 'x'] ++ hexEncode cfg.calling_address ++
      hexEncode salt ++ hexEncode (leBytes8 lane)
    addressField := ['0', 'x'] ++ checksumAddress (derivedAddress cfg salt lane)
    score := (score_address (derivedAddress cfg salt lane)).getD 0 }

/-! ## Kernel source constants (embedding of `mk_kernel_src`)

The source chains `factory.chain(caller).enumerate().chain(hash)` — where
the hash iterator is pre-shifted by 52 — and emits `#define S_{i+1} {x}u`
for every pair.  The embedding keeps the emitted (constant index, byte)
pairs in order; `defineLine` renders one emitted line. -/

/-- The ordered (constant index, byte value) pairs `mk_kernel_src` emits. -/
def mk_kernel_defines (cfg : Config) : List (Nat × Nat) :=
  ((cfg.factory_address ++ cfg.calling_address).enum
      ++ cfg.init_code_hash.enum.map (fun p : Nat × Nat => (p.1 + 52, p.2))).map
    fun p : Nat × Nat => (p.1 + 1, p.2)

/-- One emitted preprocessor line of the generated kernel source. -/
def defineLine (p : Nat × Nat) : String :=
  "#define S_" ++ toString p.1 ++ " " ++ toString p.2 ++ "u"

/-- The preprocessor prelude of the generated kernel source, in order. -/
def mk_kernel_src_lines (cfg : Config) : List String :=
  (mk_kernel_defines cfg).map defineLine

/-! ## The search loop (embedding of the dispatch loop in `gpu`)

One `step` is one inner-loop iteration: enqueue the kernel, sleep 98% of the
previous measured duration when that estimate is nonzero, read the lane
result, remeasure, then either emit the solution and begin a new round
(fresh random run segment and nonce) or increment the `u32` nonce.  The
nondeterministic inputs of an iteration — the device's lane result, the
wall-clock measurement, the RNG draws consumed if a new round starts, and
the HTTP send outcome — are an explicit `DispatchInput`.  `work_duration_millis`
lives across rounds (it is initialised to zero once, before the outer
loop), which the `initState` of a process run records. -/

/-- Host state carried across dispatches: the current round's run segment,
the 4-byte message buffer built from it, the `u32` nonce, and the last
measured work duration in milliseconds. -/
structure LoopState where
  salt : List Nat
  msgBuf : List Nat
  nonce : Nat
  workDuration : Nat
  deriving Repr, DecidableEq

/-- The nondeterministic inputs consumed by one dispatch iteration. -/
structure DispatchInput where
  lane : Nat
  measured : Nat
  freshSalt : List Nat
  freshNonce : Nat
  sendOk : Bool
  deriving Repr, DecidableEq

/-- The observable outcome of one dispatch iteration. -/
structure StepOut where
  sleep : Option Nat
  report : Option Report
  logged : Option (List Char)
  next : LoopState

/-- The log line printed when the HTTP send fails. -/
def sendFailLog : List Char := "Failed to send result to endpoint".data

/-- One dispatch iteration of `gpu`.  The sleep is taken before the
read-back, from the pre-state estimate; `work_duration_millis` is updated in
every branch; a nonzero lane result emits the payload (logging on a failed
send) and re-rolls the round, a zero result increments the `u32` nonce. -/
def step (cfg : Config) (s : LoopState) (inp : DispatchInput) : StepOut :=
  let sleep := if s.workDuration ≠ 0
    then some (s.workDuration * 980 / 1000) else none
  if inp.lane ≠ 0 then
    { sleep := sleep
      report := some (mkReport cfg s.salt inp.lane)
      logged := if inp.sendOk then none else some sendFailLog
      next := { salt := inp.freshSalt, msgBuf := inp.freshSalt,
                nonce := inp.freshNonce % 2 ^ 32,
                workDuration := inp.measured } }
  else
    { sleep := sleep
      report := none
      logged := none
      next := { s with nonce := (s.nonce + 1) % 2 ^ 32,
                       workDuration := inp.measured } }

/-- The state at the first dispatch of a process run: the first round's
random draws, and a zero duration estimate (`work_duration_millis` starts
at 0). -/
def initState (salt0 : List Nat) (nonce0 : Nat) : LoopState :=
  { salt := salt0, msgBuf := salt0, nonce := nonce0 % 2 ^ 32,
    workDuration := 0 }

/-- One trace entry: the state a dispatch started from and its outcome. -/
structure Event where
  pre : LoopState
  out : StepOut

/-- The trace of the loop over a list of dispatch inputs. -/
def runLoop (cfg : Config) (s : LoopState) : List DispatchInput → List Event
  | [] => []
  | inp :: rest =>
    let o := step cfg s inp
    ⟨s, o⟩ :: runLoop cfg o.next rest

/-! ## Specification-side definitions

These do not come from the source: each formalises the wording of one claim
so that the claim can be compared with (and, where they disagree, refuted
against) the embedded code above. -/

/-- A 5-nibble window of `l` starts at `p` and its first four nibbles are
all `4` (the condition of the source's window scan). -/
def isFourWindow (l : List Nat) (p : Nat) : Prop :=
  p + 5 ≤ l.length ∧ (l.drop p).take 4 = ([4, 4, 4, 4] : List Nat)

instance (l : List Nat) (p : Nat) : Decidable (isFourWindow l p) :=
  inferInstanceAs
    (Decidable (p + 5 ≤ l.length ∧ (l.drop p).take 4 = ([4, 4, 4, 4] : List Nat)))

/-- The step-2 bonus as the claim words it: only the 4 nibbles immediately
after the leading-zero run are tested, with 20 more when the nibble after
that run of four exists and is not `4`. -/
def specStep2Bonus (nibbles : List Nat) : Int :=
  let k := (nibbles.takeWhile fun n => n == 0).length
  if (nibbles.drop k).take 4 = ([4, 4, 4, 4] : List Nat) then
    40 + (if k + 4 < nibbles.length ∧ nibbles.getD (k + 4) 0 ≠ 4 then 20 else 0)
  else 0

/-- The constant layout as the claim words it: factory bytes at constants
1..20, caller bytes at 21..40, and init-code-hash bytes at 52..83. -/
def claimC3layout (cfg : Config) : Prop :=
  (∀ j, j < 20 → (mk_kernel_defines cfg).any
      (fun q => q.1 == j + 1 && q.2 == cfg.factory_address.getD j 0) = true)
  ∧ (∀ j, j < 20 → (mk_kernel_defines cfg).any
      (fun q => q.1 == 21 + j && q.2 == cfg.calling_address.getD j 0) = true)
  ∧ (∀ j, j < 32 → (mk_kernel_defines cfg).any
      (fun q => q.1 == 52 + j && q.2 == cfg.init_code_hash.getD j 0) = true)

/-- The sleep policy as the claim words it: no sleep on the very first
dispatch of every round (dispatch 0, and every dispatch right after a found
solution). -/
def claimC4roundStartNoSleep (cfg : Config) (s0 : LoopState)
    (inputs : List DispatchInput) : Prop :=
  ∀ i, i < (runLoop cfg s0 inputs).length →
    (i = 0 ∨
      ((runLoop cfg s0 inputs).map (fun e => e.out.report.isSome)).getD (i - 1) false = true) →
    ((runLoop cfg s0 inputs).map (fun e => e.out.sleep)).getD i none = none

/-- Run-segment freshness as the claim words it: no dispatch after a found
solution ever runs with the run segment of the round that solution ended. -/
def claimC6noReuse (cfg : Config) (s0 : LoopState)
    (inputs : List DispatchInput) : Prop :=
  ∀ i, i < (runLoop cfg s0 inputs).length →
    ((runLoop cfg s0 inputs).map (fun e => e.out.report.isSome)).getD i false = true →
    ∀ j, j < (runLoop cfg s0 inputs).length → i < j →
      ((runLoop cfg s0 inputs).map (fun e => e.pre.salt)).getD j [] ≠
        ((runLoop cfg s0 inputs).map (fun e => e.pre.salt)).getD i []

/-- The adaptive sleep as a function of the previous estimate: nothing when
the estimate is zero, else 98% of it (integer division). -/
def sleepOf (d : Nat) : Option Nat :=
  if d = 0 then none else some (d * 980 / 1000)

/-- A concrete well-formed configuration used to instantiate theorems. -/
def cfgEx : Config :=
  ⟨List.replicate 20 1, List.replicate 20 2, List.replicate 32 7⟩

/-! ## Helper lemmas -/

/-- `List.set` at the length of a left factor lands at the head of the right
factor. -/
theorem set_append_len (pre : List Nat) (x : Nat) (l : List Nat) :
    (pre ++ l).set pre.length x = pre ++ l.set 0 x := by
  induction pre with
  | nil => simp
  | cons a t ih => simpa using ih

/-- The nibble expansion of an appended byte string. -/
theorem nibblesOf_append (a b : List Nat) :
    nibblesOf (a ++ b) = nibblesOf a ++ nibblesOf b := by
  simp [nibblesOf]

/-- The nibble expansion of a run of zero bytes. -/
theorem nibblesOf_replicate_zero (k : Nat) :
    nibblesOf (List.replicate k 0) = List.replicate (2 * k) 0 := by
  induction k with
  | zero => simp [nibblesOf]
  | succ n ih =>
    rw [show 2 * (n + 1) = 2 * n + 1 + 1 by ring]
    simp [nibblesOf, List.replicate_succ] at ih ⊢
    simpa using ih

/-- Successful nibble-array fill: when twice the input length fits in the
remaining suffix, `writeNibbles` succeeds and overwrites exactly that
suffix prefix with the input's nibbles. -/
theorem writeNibbles_some :
    ∀ (l pre suf : List Nat) (i : Nat), pre.length = 2 * i →
      2 * l.length ≤ suf.length →
      writeNibbles (pre ++ suf) i l =
        some (pre ++ (nibblesOf l ++ suf.drop (2 * l.length))) := by
  intro l
  induction l with
  | nil => intro pre suf i _ _; simp [writeNibbles, nibblesOf]
  | cons b rest ih =>
    intro pre suf i hp hs
    obtain ⟨s0, s1, suf2, rfl⟩ : ∃ s0 s1 suf2, suf = s0 :: s1 :: suf2 := by
      match suf with
      | [] => simp at hs
      | [s0] => simp at hs; omega
      | s0 :: s1 :: t => exact ⟨s0, s1, t, rfl⟩
    have hcond : 2 * i + 1 < (pre ++ s0 :: s1 :: suf2).length := by
      simp [List.length_append, hp]
    have e1 : (pre ++ s0 :: s1 :: suf2).set (2 * i) (b / 16)
        = pre ++ (b / 16) :: s1 :: suf2 := by
      rw [← hp, set_append_len]; simp
    have e2 : (pre ++ (b / 16) :: s1 :: suf2).set (2 * i + 1) (b % 16)
        = pre ++ (b / 16) :: (b % 16) :: suf2 := by
      have hsplit : pre ++ (b / 16) :: s1 :: suf2
          = (pre ++ [b / 16]) ++ s1 :: suf2 := by simp
      have hlen : (pre ++ [b / 16]).length = 2 * i + 1 := by simp [hp]
      rw [hsplit, ← hlen, set_append_len]
      simp
    simp only [writeNibbles, if_pos hcond, e1, e2]
    have hsplit2 : pre ++ (b / 16) :: (b % 16) :: suf2
        = (pre ++ [b / 16, b % 16]) ++ suf2 := by simp
    rw [hsplit2, ih (pre ++ [b / 16, b % 16]) suf2 (i + 1)
      (by simp [hp]; ring) (by simp at hs; omega)]
    rw [show 2 * ((b :: rest).length) = 2 * rest.length + 1 + 1 by
      simp [List.length_cons]; ring]
    simp [nibblesOf, List.drop_succ_cons]

/-- Failing nibble-array fill: a nonempty input needing more than the array
holds past position `2*i` panics (`none`). -/
theorem writeNibbles_none :
    ∀ (l arr : List Nat) (i : Nat), l ≠ [] →
      arr.length < 2 * i + 2 * l.length → writeNibbles arr i l = none := by
  intro l
  induction l with
  | nil => intro _ _ h _; exact absurd rfl h
  | cons b rest ih =>
    intro arr i _ hlen
    simp only [writeNibbles]
    by_cases hc : 2 * i + 1 < arr.length
    · rw [if_pos hc]
      have hne : rest ≠ [] := by
        rintro rfl
        simp [List.length_cons] at hlen
        omega
      apply ih _ _ hne
      simp only [List.length_set]
      simp [List.length_cons] at hlen
      omega
    · rw [if_neg hc]

/-- On a full 20-byte address the fill succeeds with exactly the address's
nibbles. -/
theorem score_address_some (addr : List Nat) (h : addr.length = 20) :
    score_address addr = some (scoreNibbles (nibblesOf addr)) := by
  unfold score_address
  have hw := writeNibbles_some addr [] (List.replicate 40 0) 0 (by simp)
    (by simp [h])
  simp only [List.nil_append] at hw
  rw [hw, h]
  simp [List.drop_replicate]

/-- Shifting a 5-nibble window across a cons. -/
theorem isFourWindow_cons (a : Nat) (l : List Nat) (q : Nat) :
    isFourWindow (a :: l) (q + 1) ↔ isFourWindow l q := by
  unfold isFourWindow
  rw [List.drop_succ_cons]
  constructor <;> rintro ⟨h1, h2⟩ <;> exact ⟨by simp at h1 ⊢; omega, h2⟩


/-- A list of length at least 5 starts with five explicit elements. -/
theorem exists_five_cons : ∀ (l : List Nat), 5 ≤ l.length →
    ∃ a b c d e rest, l = a :: b :: c :: d :: e :: rest
  | a :: b :: c :: d :: e :: rest, _ => ⟨a, b, c, d, e, rest, rfl⟩
  | [], h => absurd h (by simp)
  | [a], h => absurd h (by simp)
  | [a, b], h => absurd h (by simp)
  | [a, b, c], h => absurd h (by simp)
  | [a, b, c, d], h => absurd h (by simp)

/-- The window bonus at the earliest matching window: if the windows before
`p` do not match and the window at `p` does, the scan awards `40` plus `20`
when the nibble after the run of four is not `4`. -/
theorem fourBonus_first (l : List Nat) (p : Nat)
    (hp : isFourWindow l p) (hmin : ∀ q, q < p → ¬ isFourWindow l q) :
    fourBonus l = 40 + (if l.getD (p + 4) 0 ≠ 4 then 20 else 0) := by
  induction p generalizing l with
  | zero =>
    obtain ⟨hlen, hwin⟩ := hp
    obtain ⟨a, b, c, d, e, rest, rfl⟩ := exists_five_cons l (by simpa using hlen)
    have habcd : a = 4 ∧ b = 4 ∧ c = 4 ∧ d = 4 := by simpa using hwin
    obtain ⟨rfl, rfl, rfl, rfl⟩ := habcd
    simp [fourBonus, List.getD]
  | succ p ihp =>
    obtain ⟨hlen, hwin⟩ := hp
    obtain ⟨a, b, c, d, e, rest, rfl⟩ := exists_five_cons l (by omega)
    have h0 : ¬ isFourWindow (a :: b :: c :: d :: e :: rest) 0 :=
      hmin 0 (Nat.succ_pos p)
    have hne : ([a, b, c, d] : List Nat) ≠ [4, 4, 4, 4] := by
      intro hc
      apply h0
      refine ⟨by simp, ?_⟩
      simpa using hc
    have hstep : fourBonus (a :: b :: c :: d :: e :: rest)
        = fourBonus (b :: c :: d :: e :: rest) := by
      simp only [fourBonus, if_neg hne]
    have htail : isFourWindow (b :: c :: d :: e :: rest) p :=
      (isFourWindow_cons a _ p).mp ⟨hlen, hwin⟩
    have hmin' : ∀ q, q < p → ¬ isFourWindow (b :: c :: d :: e :: rest) q := by
      intro q hq hcontra
      exact hmin (q + 1) (by omega) ((isFourWindow_cons a _ q).mpr hcontra)
    rw [hstep, ihp _ htail hmin']
    have hgetD : (a :: b :: c :: d :: e :: rest).getD (p + 1 + 4) 0
        = (b :: c :: d :: e :: rest).getD (p + 4) 0 := by
      rw [show p + 1 + 4 = p + 4 + 1 by omega]
      exact List.getD_cons_succ
    rw [hgetD]

/-- The window scan awards nothing when no 5-nibble window starts with four
`4`s — in particular on any list shorter than 5 nibbles past every `4` run. -/
theorem fourBonus_none : ∀ (l : List Nat),
    (∀ p, ¬ isFourWindow l p) → fourBonus l = 0
  | [], _ => rfl
  | [_], _ => rfl
  | [_, _], _ => rfl
  | [_, _, _], _ => rfl
  | [_, _, _, _], _ => rfl
  | a :: b :: c :: d :: e :: rest, h => by
    have hne : ([a, b, c, d] : List Nat) ≠ [4, 4, 4, 4] := by
      intro hc
      apply h 0
      refine ⟨by simp, ?_⟩
      simpa using hc
    have hstep : fourBonus (a :: b :: c :: d :: e :: rest)
        = fourBonus (b :: c :: d :: e :: rest) := by
      simp only [fourBonus, if_neg hne]
    rw [hstep]
    exact fourBonus_none (b :: c :: d :: e :: rest)
      (fun p hp => h (p + 1) ((isFourWindow_cons a _ p).mpr hp))

/-- A keccak-256 digest is 32 bytes. -/
theorem keccak256_length (m : List Nat) : (keccak256 m).length = 32 := by
  simp [keccak256]

/-- Every keccak-256 digest byte is below 256. -/
theorem keccak256_lt (m : List Nat) : ∀ b ∈ keccak256 m, b < 256 := by
  intro b hb
  simp only [keccak256, List.mem_map, List.mem_range] at hb
  obtain ⟨j, _, hbeq⟩ := hb
  exact hbeq ▸ Nat.mod_lt _ (by norm_num)

/-- The derived address is 20 bytes. -/
theorem derivedAddress_length (cfg : Config) (salt : List Nat) (lane : Nat) :
    (derivedAddress cfg salt lane).length = 20 := by
  simp [derivedAddress, keccak256_length]

/-- Every derived-address byte is below 256. -/
theorem derivedAddress_lt (cfg : Config) (salt : List Nat) (lane : Nat) :
    ∀ b ∈ derivedAddress cfg salt lane, b < 256 :=
  fun b hb => keccak256_lt _ b (List.drop_subset _ _ hb)

/-- A `u64` always serialises to 8 little-endian bytes. -/
theorem leBytes8_length (x : Nat) : (leBytes8 x).length = 8 := by
  simp [leBytes8]

/-- Hex encoding emits two characters per byte. -/
theorem hexEncode_length (l : List Nat) :
    (hexEncode l).length = 2 * l.length := by
  induction l with
  | nil => simp [hexEncode]
  | cons b t ih =>
    simp [hexEncode] at ih ⊢
    omega

/-- Decoding inverts the lowercase hex character of a nibble, whether or not
`make_ascii_uppercase` was applied to it. -/
theorem hexDecodeChar_round : ∀ n, n < 16 →
    hexDecodeChar (hexCharLower n) = n ∧
      hexDecodeChar (asciiUpper (hexCharLower n)) = n := by decide

/-- Decoding inverts hex encoding even after uppercasing an arbitrary
selection of positions (the general shape of the EIP-55 checksum map). -/
theorem hexDecodePairs_enum_map (g : Nat → Prop) [DecidablePred g] :
    ∀ (l : List Nat) (k : Nat), (∀ b ∈ l, b < 256) →
      hexDecodePairs (((hexEncode l).enumFrom k).map fun p =>
        if g p.1 then asciiUpper p.2 else p.2) = l := by
  intro l
  induction l with
  | nil => intro k _; simp [hexEncode, hexDecodePairs]
  | cons b rest ih =>
    intro k hb
    have hb0 : b < 256 := hb b (by simp)
    have hdiv : b / 16 < 16 := by omega
    have hmod : b % 16 < 16 := by omega
    have hcons : hexEncode (b :: rest)
        = hexCharLower (b / 16) :: hexCharLower (b % 16) :: hexEncode rest := by
      simp [hexEncode]
    rw [hcons]
    simp only [List.enumFrom, List.map_cons, hexDecodePairs]
    have d1 : hexDecodeChar (if g k then asciiUpper (hexCharLower (b / 16))
        else hexCharLower (b / 16)) = b / 16 := by
      by_cases hg : g k <;>
        simp [hg, (hexDecodeChar_round (b / 16) hdiv).1,
          (hexDecodeChar_round (b / 16) hdiv).2]
    have d2 : hexDecodeChar (if g (k + 1) then asciiUpper (hexCharLower (b % 16))
        else hexCharLower (b % 16)) = b % 16 := by
      by_cases hg : g (k + 1) <;>
        simp [hg, (hexDecodeChar_round (b % 16) hmod).1,
          (hexDecodeChar_round (b % 16) hmod).2]
    rw [d1, d2, ih (k + 2) (fun x hx => hb x (by simp [hx]))]
    congr 1
    omega

/-- Decoding the EIP-55 checksummed display of an address recovers the
address bytes. -/
theorem hexDecodePairs_checksum (addr : List Nat) (h : ∀ b ∈ addr, b < 256) :
    hexDecodePairs (checksumAddress addr) = addr := by
  unfold checksumAddress
  simp only [List.enum]
  exact hexDecodePairs_enum_map
    (fun i => 8 ≤ (nibblesOf (keccak256 ((hexEncode addr).map Char.toNat))).getD i 0)
    addr 0 h

/-- A ranged write starting exactly at the length of a left factor replaces
the leading bytes of the right factor. -/
theorem setRange_append (a b v : List Nat) :
    setRange (a ++ b) a.length v = a ++ (v ++ b.drop v.length) := by
  unfold setRange
  rw [List.take_left]
  have hdrop : List.drop (a.length + v.length) (a ++ b) = b.drop v.length := by
    rw [← List.drop_drop, List.drop_left]
  rw [hdrop, List.append_assoc]

/-- `setRange_append` with the array and offset given in any convertible
form. -/
theorem setRange_eq (arr pre suf v : List Nat) (n : Nat)
    (ha : arr = pre ++ suf) (hn : n = pre.length) :
    setRange arr n v = pre ++ (v ++ suf.drop v.length) := by
  subst ha hn
  exact setRange_append pre suf v

/-- Shifting the indices of an enumeration: the enumerated list with `k`
added to every index is the zip with the corresponding `range'`. -/
theorem enumFrom_map_add (k : Nat) :
    ∀ (l : List Nat) (n : Nat),
      (List.enumFrom n l).map (fun p => (p.1 + k, p.2))
        = (List.range' (n + k) l.length).zip l := by
  intro l
  induction l with
  | nil => intro n; simp
  | cons a t ih =>
    intro n
    have hr : List.range' (n + k) (t.length + 1)
        = (n + k) :: List.range' (n + k + 1) t.length := by
      simp [List.range'_succ]
    simp only [List.enumFrom, List.map_cons, List.length_cons, hr,
      List.zip_cons_cons]
    rw [ih (n + 1), show n + 1 + k = n + k + 1 by omega]

/-- The sequence of indexed slice writes building `solution_message` yields
exactly the concatenation of the claimed segments. -/
theorem solutionMessage_layout (cfg : Config) (salt : List Nat) (lane : Nat)
    (hf : cfg.factory_address.length = 20)
    (hc : cfg.calling_address.length = 20)
    (hh : cfg.init_code_hash.length = 32) (hs : salt.length = 4) :
    solutionMessage cfg salt lane
      = 0xff :: (cfg.factory_address ++ (cfg.calling_address ++ (salt ++
          (leBytes8 lane ++ cfg.init_code_hash)))) := by
  have e0 : (List.replicate 85 0).set 0 0xff
      = [0xff] ++ List.replicate 84 0 := by decide
  have e1 : setRange ([0xff] ++ List.replicate 84 0) 1 cfg.factory_address
      = ([0xff] ++ cfg.factory_address) ++ List.replicate 64 0 := by
    rw [setRange_eq _ [0xff] (List.replicate 84 0) _ 1 rfl (by simp)]
    simp [hf, List.drop_replicate, List.append_assoc]
  have e2 : setRange (([0xff] ++ cfg.factory_address) ++ List.replicate 64 0)
        21 cfg.calling_address
      = (([0xff] ++ cfg.factory_address) ++ cfg.calling_address)
          ++ List.replicate 44 0 := by
    rw [setRange_eq _ ([0xff] ++ cfg.factory_address) (List.replicate 64 0)
      _ 21 rfl (by simp [hf])]
    simp [hc, List.drop_replicate, List.append_assoc]
  have e3 : setRange ((([0xff] ++ cfg.factory_address) ++ cfg.calling_address)
        ++ List.replicate 44 0) 41 salt
      = ((([0xff] ++ cfg.factory_address) ++ cfg.calling_address) ++ salt)
          ++ List.replicate 40 0 := by
    rw [setRange_eq _ (([0xff] ++ cfg.factory_address) ++ cfg.calling_address)
      (List.replicate 44 0) _ 41 rfl (by simp [hf, hc])]
    simp [hs, List.drop_replicate, List.append_assoc]
  have e4 : setRange (((([0xff] ++ cfg.factory_address) ++ cfg.calling_address)
        ++ salt) ++ List.replicate 40 0) 45 (leBytes8 lane)
      = (((([0xff] ++ cfg.factory_address) ++ cfg.calling_address) ++ salt)
          ++ leBytes8 lane) ++ List.replicate 32 0 := by
    rw [setRange_eq _ ((([0xff] ++ cfg.factory_address) ++ cfg.calling_address)
      ++ salt) (List.replicate 40 0) _ 45 rfl (by simp [hf, hc, hs])]
    simp [leBytes8_length, List.drop_replicate, List.append_assoc]
  have e5 : setRange ((((([0xff] ++ cfg.factory_address) ++ cfg.calling_address)
        ++ salt) ++ leBytes8 lane) ++ List.replicate 32 0) 53 cfg.init_code_hash
      = ((((([0xff] ++ cfg.factory_address) ++ cfg.calling_address) ++ salt)
          ++ leBytes8 lane) ++ cfg.init_code_hash) := by
    rw [setRange_eq _ (((([0xff] ++ cfg.factory_address) ++ cfg.calling_address)
      ++ salt) ++ leBytes8 lane) (List.replicate 32 0) _ 53 rfl
      (by simp [hf, hc, hs, leBytes8_length])]
    simp [hh, List.drop_replicate, List.append_assoc]
  unfold solutionMessage
  rw [e0, e1, e2, e3, e4, e5]
  simp [List.append_assoc]

/-- The sleep taken by a dispatch is a function of the pre-state's duration
estimate. -/
theorem step_sleep (cfg : Config) (s : LoopState) (inp : DispatchInput) :
    (step cfg s inp).sleep = sleepOf s.workDuration := by
  by_cases h1 : inp.lane ≠ 0 <;> by_cases h2 : s.workDuration = 0 <;>
    simp [step, sleepOf, h1, h2]

/-- Every dispatch replaces the duration estimate with its own measurement. -/
theorem step_workDuration (cfg : Config) (s : LoopState) (inp : DispatchInput) :
    (step cfg s inp).next.workDuration = inp.measured := by
  by_cases h : inp.lane ≠ 0 <;> simp [step, h]

/-- The sleep of dispatch `i` of a trace: none of the state except the
duration estimate matters, and the estimate entering dispatch `i` is the
measurement of dispatch `i - 1` (or the initial estimate when `i = 0`). -/
theorem runLoop_sleep (cfg : Config) :
    ∀ (inputs : List DispatchInput) (s : LoopState) (i : Nat),
      i < inputs.length →
      ((runLoop cfg s inputs).map (fun e => e.out.sleep)).getD i none
        = sleepOf (if i = 0 then s.workDuration
            else (inputs.map DispatchInput.measured).getD (i - 1) 0) := by
  intro inputs
  induction inputs with
  | nil => intro s i h; simp at h
  | cons inp rest ih =>
    intro s i hi
    match i with
    | 0 => simp [runLoop, step_sleep]
    | (j + 1) =>
      simp only [runLoop, List.map_cons, List.getD_cons_succ]
      rw [ih _ j (by simpa using hi)]
      match j with
      | 0 => simp [step_workDuration]
      | (m + 1) => simp [List.getD_cons_succ]

/-! ## The claims -/

/-- C1 (counterexample): the address `0x1444400000000000000000000000000000000000`
has no leading-zero run, so the 4 nibbles immediately after that run are
`1,4,4,4` — not all `4` — and the claim predicts no step-2 bonus; yet the
scan finds `4444` at position 1 and awards `40 + 20`, making the total score
64 instead of the claimed 4. -/
theorem c1_counterexample :
    specStep2Bonus (nibblesOf ([0x14, 0x44, 0x40] ++ List.replicate 17 0)) = 0
    ∧ fourBonus (nibblesOf ([0x14, 0x44, 0x40] ++ List.replicate 17 0)) = 60
    ∧ score_address ([0x14, 0x44, 0x40] ++ List.replicate 17 0)
      = some 64 := by
  refine ⟨by decide, by decide, by decide⟩

/-- C1 (amended): for a 20-byte address, the step-2 bonus of
`score_address` is awarded **exactly** at the earliest 5-nibble window whose
first four nibbles are all `4` — wherever that window sits, adjacent to the
leading-zero run or not — as `40` plus `20` exactly when the window's fifth
nibble is not `4`; and when no such window exists the step awards nothing,
so in particular a `4444` run starting at nibble 36 (which is covered by no
5-nibble window) earns neither bonus. -/
theorem c1_step2_bonus (addr : List Nat) (h20 : addr.length = 20) :
    score_address addr = some (scoreNibbles (nibblesOf addr))
    ∧ (∀ p, isFourWindow (nibblesOf addr) p →
        (∀ q, q < p → ¬ isFourWindow (nibblesOf addr) q) →
        fourBonus (nibblesOf addr)
          = 40 + (if (nibblesOf addr).getD (p + 4) 0 ≠ 4 then 20 else 0))
    ∧ ((∀ p, ¬ isFourWindow (nibblesOf addr) p) →
        fourBonus (nibblesOf addr) = 0) :=
  ⟨score_address_some addr h20,
    fun p hp hmin => fourBonus_first _ p hp hmin,
    fun hnone => fourBonus_none _ hnone⟩

/-- C1 (witness): both directions of the amended characterisation at
concrete addresses — `0x0144440000...00`, whose earliest all-`4` window
starts at nibble 2 and is followed by a non-`4`, scores `40 + 20` from the
window step, and `0x0000...00004444`, whose `4444` run starts at nibble 36
where no 5-nibble window reaches, scores `0` from it. -/
theorem c1_step2_bonus_witness :
    ([0x01, 0x44, 0x44] ++ List.replicate 17 0).length = 20
    ∧ fourBonus (nibblesOf ([0x01, 0x44, 0x44] ++ List.replicate 17 0))
      = 40 + (if (nibblesOf ([0x01, 0x44, 0x44] ++ List.replicate 17 0)).getD (2 + 4) 0 ≠ 4
          then 20 else 0)
    ∧ (List.replicate 18 0 ++ [0x44, 0x44]).length = 20
    ∧ fourBonus (nibblesOf (List.replicate 18 0 ++ [0x44, 0x44])) = 0 := by
  refine ⟨by decide,
    (c1_step2_bonus ([0x01, 0x44, 0x44] ++ List.replicate 17 0) (by decide)).2.1
      2 (by decide) (by decide),
    by decide,
    (c1_step2_bonus (List.replicate 18 0 ++ [0x44, 0x44]) (by decide)).2.2 ?_⟩
  intro p hp
  have hL : (nibblesOf (List.replicate 18 0 ++ [0x44, 0x44])).length = 40 := by
    decide
  have h5 : p + 5 ≤ 40 := hL ▸ hp.1
  exact absurd hp
    ((by decide : ∀ q, q < 36 →
        ¬ isFourWindow (nibblesOf (List.replicate 18 0 ++ [0x44, 0x44])) q)
      p (by omega))

/-- C3 (counterexample): with factory bytes all `1`, caller bytes all `2`
and hash bytes all `7`, no emitted constant has index 52 at all — the hash
bytes sit at 53..84, not 52..83 as claimed. -/
theorem c3_counterexample : ¬ claimC3layout cfgEx := by
  unfold claimC3layout cfgEx
  decide

/-- C3 (amended): the generated kernel prelude defines the factory bytes as
constants 1..20 and the caller bytes as constants 21..40, but the init-code
hash bytes as constants **53..84** (the loop adds 1 to the already-shifted
enumerate index `i + 52`). -/
theorem c3_define_offsets (cfg : Config)
    (hf : cfg.factory_address.length = 20)
    (hc : cfg.calling_address.length = 20)
    (hh : cfg.init_code_hash.length = 32) :
    mk_kernel_defines cfg
      = (List.range' 1 20).zip cfg.factory_address
        ++ ((List.range' 21 20).zip cfg.calling_address
          ++ (List.range' 53 32).zip cfg.init_code_hash) := by
  unfold mk_kernel_defines
  rw [List.map_append]
  have hA : ((cfg.factory_address ++ cfg.calling_address).enum).map
      (fun p => (p.1 + 1, p.2))
      = (List.range' 1 40).zip (cfg.factory_address ++ cfg.calling_address) := by
    have h := enumFrom_map_add 1 (cfg.factory_address ++ cfg.calling_address) 0
    simpa [List.enum, hf, hc] using h
  have hB : ((cfg.init_code_hash.enum.map fun p => (p.1 + 52, p.2)).map
      (fun p => (p.1 + 1, p.2)))
      = (List.range' 53 32).zip cfg.init_code_hash := by
    rw [List.map_map]
    have hcomp : ((fun p : Nat × Nat => (p.1 + 1, p.2)) ∘
        (fun p : Nat × Nat => (p.1 + 52, p.2)))
        = fun p : Nat × Nat => (p.1 + 53, p.2) := by
      funext p
      show ((p.1 + 52) + 1, p.2) = (p.1 + 53, p.2)
      rw [show p.1 + 52 + 1 = p.1 + 53 from by omega]
    rw [hcomp]
    have h := enumFrom_map_add 53 cfg.init_code_hash 0
    simpa [List.enum, hh] using h
  rw [hA, hB]
  have hsplit : List.range' 1 40 = List.range' 1 20 ++ List.range' 21 20 := by
    decide
  rw [hsplit, List.zip_append (by simp [hf])]
  simp [List.append_assoc]

/-- C3 (witness): the amended layout at the concrete configuration with
factory bytes `1`, caller bytes `2` and hash bytes `7`. -/
theorem c3_define_offsets_witness :
    cfgEx.factory_address.length = 20
    ∧ cfgEx.calling_address.length = 20
    ∧ cfgEx.init_code_hash.length = 32
    ∧ mk_kernel_defines cfgEx
      = (List.range' 1 20).zip cfgEx.factory_address
        ++ ((List.range' 21 20).zip cfgEx.calling_address
          ++ (List.range' 53 32).zip cfgEx.init_code_hash) :=
  ⟨by decide, by decide, by decide,
    c3_define_offsets cfgEx (by decide) (by decide) (by decide)⟩

/-- C9: the all-zero 20-byte address scores exactly 400 — forty zero
nibbles at 10 points each, and no `4`-related bonus. -/
theorem c9_zero_address_score :
    score_address (List.replicate 20 0) = some 400 := by decide

/-- C10: `score_address` accepts any byte slice — at most 20 bytes it
returns normally, scoring the input as if zero-padded to 20 bytes (the
unwritten nibbles of the fixed array stay 0), while more than 20 bytes
panics (`none`) on the out-of-bounds write into the 40-nibble array. -/
theorem c10_slice_length (l : List Nat) :
    (l.length ≤ 20 → score_address l
      = some (scoreNibbles (nibblesOf (l ++ List.replicate (20 - l.length) 0))))
    ∧ (20 < l.length → score_address l = none) := by
  constructor
  · intro h
    unfold score_address
    have hw := writeNibbles_some l [] (List.replicate 40 0) 0 (by simp)
      (by simp; omega)
    simp only [List.nil_append] at hw
    rw [hw]
    simp only [Option.map_some']
    congr 1
    rw [nibblesOf_append, nibblesOf_replicate_zero, List.drop_replicate]
    have harith : 40 - 2 * l.length = 2 * (20 - l.length) := by omega
    rw [harith]
  · intro h
    unfold score_address
    rw [writeNibbles_none l _ 0 (by rintro rfl; simp at h) (by simp; omega)]
    rfl

/-- C10 (witness): a 21-byte input panics; a 1-byte input scores as the
zero-padded address. -/
theorem c10_slice_length_witness :
    (20 < (List.replicate 21 3).length ∧ score_address (List.replicate 21 3) = none)
    ∧ ((1 : Nat) ≤ 20 ∧ score_address [0x14]
        = some (scoreNibbles (nibblesOf ([0x14] ++ List.replicate (20 - [0x14].length) 0)))) :=
  ⟨⟨by decide, (c10_slice_length (List.replicate 21 3)).2 (by decide)⟩,
    ⟨by decide, (c10_slice_length [0x14]).1 (by decide)⟩⟩

/-- C2: for a found non-zero lane result, the derivation message is exactly
`0xFF || factory (20) || caller (20) || run segment (4) || lane result as 8
little-endian bytes || init-code hash (32)` — 85 bytes — and the candidate
address is bytes 12..31 of its keccak-256 digest (being a pure function of
these inputs, the message is byte-identical across repeated calls). -/
theorem c2_address_derivation (cfg : Config) (salt : List Nat) (lane : Nat)
    (hf : cfg.factory_address.length = 20)
    (hc : cfg.calling_address.length = 20)
    (hh : cfg.init_code_hash.length = 32) (hs : salt.length = 4)
    (hlane : lane ≠ 0) :
    solutionMessage cfg salt lane
      = 0xff :: (cfg.factory_address ++ (cfg.calling_address ++ (salt ++
          (leBytes8 lane ++ cfg.init_code_hash))))
    ∧ (solutionMessage cfg salt lane).length = 85
    ∧ (leBytes8 lane).length = 8
    ∧ derivedAddress cfg salt lane
      = (keccak256 (0xff :: (cfg.factory_address ++ (cfg.calling_address ++
          (salt ++ (leBytes8 lane ++ cfg.init_code_hash)))))).drop 12
    ∧ (derivedAddress cfg salt lane).length = 20 := by
  have hmsg := solutionMessage_layout cfg salt lane hf hc hh hs
  refine ⟨hmsg, ?_, leBytes8_length lane, ?_, derivedAddress_length cfg salt lane⟩
  · rw [hmsg]
    simp [hf, hc, hh, hs, leBytes8_length]
  · unfold derivedAddress
    rw [hmsg]

/-- C2 (witness): the derivation shape at a concrete configuration, run
segment and lane result. -/
theorem c2_address_derivation_witness :
    cfgEx.factory_address.length = 20
    ∧ cfgEx.calling_address.length = 20
    ∧ cfgEx.init_code_hash.length = 32
    ∧ ([3, 3, 3, 3] : List Nat).length = 4
    ∧ (1 : Nat) ≠ 0
    ∧ (solutionMessage cfgEx [3, 3, 3, 3] 1).length = 85
    ∧ (derivedAddress cfgEx [3, 3, 3, 3] 1).length = 20 :=
  ⟨by decide, by decide, by decide, by decide, by decide,
    (c2_address_derivation cfgEx [3, 3, 3, 3] 1 (by decide) (by decide)
      (by decide) (by decide) (by decide)).2.1,
    (c2_address_derivation cfgEx [3, 3, 3, 3] 1 (by decide) (by decide)
      (by decide) (by decide) (by decide)).2.2.2.2⟩

/-- C8: the payload's salt field is `0x` ++ the 40 hex digits of the caller
++ the 8 hex digits of the run segment ++ the 16 hex digits of the
little-endian lane result; the address field is the (checksummed) hex string
of the derived address — its 40 hex digits decode back to exactly the
derived address bytes — and the score field is `score_address` of that
address. -/
theorem c8_payload_fields (cfg : Config) (salt : List Nat) (lane : Nat)
    (hc : cfg.calling_address.length = 20) (hs : salt.length = 4) :
    (mkReport cfg salt lane).saltField
      = ['0', 'x'] ++ (hexEncode cfg.calling_address ++ (hexEncode salt ++
          hexEncode (leBytes8 lane)))
    ∧ (hexEncode cfg.calling_address).length = 40
    ∧ (hexEncode salt).length = 8
    ∧ (hexEncode (leBytes8 lane)).length = 16
    ∧ (mkReport cfg salt lane).addressField
      = ['0', 'x'] ++ checksumAddress (derivedAddress cfg salt lane)
    ∧ hexDecodePairs ((mkReport cfg salt lane).addressField.drop 2)
      = derivedAddress cfg salt lane
    ∧ score_address (derivedAddress cfg salt lane)
      = some ((mkReport cfg salt lane).score) := by
  refine ⟨?_, ?_, ?_, ?_, ?_, ?_, ?_⟩
  · simp [mkReport, List.append_assoc]
  · simp [hexEncode_length, hc]
  · simp [hexEncode_length, hs]
  · simp [hexEncode_length, leBytes8_length]
  · simp [mkReport]
  · exact hexDecodePairs_checksum _ (derivedAddress_lt cfg salt lane)
  · have h20 := derivedAddress_length cfg salt lane
    rw [score_address_some _ h20]
    simp [mkReport, score_address_some _ h20]

/-- C8 (witness): the payload shape at a concrete configuration, run segment
and lane result. -/
theorem c8_payload_fields_witness :
    cfgEx.calling_address.length = 20
    ∧ ([3, 3, 3, 3] : List Nat).length = 4
    ∧ (mkReport cfgEx [3, 3, 3, 3] 1).saltField
      = ['0', 'x'] ++ (hexEncode cfgEx.calling_address ++ (hexEncode [3, 3, 3, 3] ++
          hexEncode (leBytes8 1)))
    ∧ hexDecodePairs ((mkReport cfgEx [3, 3, 3, 3] 1).addressField.drop 2)
      = derivedAddress cfgEx [3, 3, 3, 3] 1
    ∧ score_address (derivedAddress cfgEx [3, 3, 3, 3] 1)
      = some ((mkReport cfgEx [3, 3, 3, 3] 1).score) :=
  ⟨by decide, by decide,
    (c8_payload_fields cfgEx [3, 3, 3, 3] 1 (by decide) (by decide)).1,
    (c8_payload_fields cfgEx [3, 3, 3, 3] 1 (by decide) (by decide)).2.2.2.2.2.1,
    (c8_payload_fields cfgEx [3, 3, 3, 3] 1 (by decide) (by decide)).2.2.2.2.2.2⟩

/-- C4 (counterexample): in a two-dispatch run whose first dispatch finds a
solution with measured duration 100 ms, the second dispatch is the first
dispatch of a new round yet sleeps 98 ms — `work_duration_millis` is never
reset at a round boundary, so "no sleep on the very first dispatch of every
round" fails. -/
theorem c4_counterexample :
    ¬ claimC4roundStartNoSleep cfgEx (initState [1, 2, 3, 4] 5)
      [⟨7, 100, [6, 7, 8, 9], 11, true⟩, ⟨0, 100, [0, 0, 0, 0], 0, true⟩] := by
  unfold claimC4roundStartNoSleep
  decide

/-- C4 (amended): no sleep occurs on the very first dispatch of the
process; every later dispatch — round boundary or not — sleeps
`⌊previous measured duration × 980 / 1000⌋` ms (before reading back the
result), except that a zero previous measurement means no sleep. -/
theorem c4_sleep_policy (cfg : Config) (salt0 : List Nat) (nonce0 : Nat)
    (inputs : List DispatchInput) (i : Nat) (hi : i < inputs.length) :
    ((runLoop cfg (initState salt0 nonce0) inputs).map
        (fun e => e.out.sleep)).getD i none
      = if i = 0 then none
        else sleepOf ((inputs.map DispatchInput.measured).getD (i - 1) 0) := by
  rw [runLoop_sleep cfg inputs _ i hi]
  by_cases h : i = 0 <;> simp [h, initState, sleepOf]

/-- C4 (witness): the amended sleep policy at a concrete two-dispatch run
(the second dispatch sleeps 98 ms = 98% of the first one's 100 ms). -/
theorem c4_sleep_policy_witness :
    1 < ([⟨7, 100, [6, 7, 8, 9], 11, true⟩,
        ⟨0, 100, [0, 0, 0, 0], 0, true⟩] : List DispatchInput).length
    ∧ ((runLoop cfgEx (initState [1, 2, 3, 4] 5)
          [⟨7, 100, [6, 7, 8, 9], 11, true⟩, ⟨0, 100, [0, 0, 0, 0], 0, true⟩]).map
        (fun e => e.out.sleep)).getD 1 none
      = if 1 = 0 then none
        else sleepOf ((([⟨7, 100, [6, 7, 8, 9], 11, true⟩,
            ⟨0, 100, [0, 0, 0, 0], 0, true⟩] : List DispatchInput).map
              DispatchInput.measured).getD 0 0) :=
  ⟨by decide,
    c4_sleep_policy cfgEx [1, 2, 3, 4] 5
      [⟨7, 100, [6, 7, 8, 9], 11, true⟩, ⟨0, 100, [0, 0, 0, 0], 0, true⟩]
      1 (by decide)⟩

/-- C5 (counterexample): with the `u32` nonce at `2^32 - 1`, a zero-lane
dispatch wraps it to 0 — the nonce does not strictly increase by 1 there. -/
theorem c5_counterexample :
    (step cfgEx (initState [1, 2, 3, 4] (2 ^ 32 - 1))
        ⟨0, 50, [], 0, true⟩).next.nonce = 0
    ∧ ¬ ((step cfgEx (initState [1, 2, 3, 4] (2 ^ 32 - 1))
        ⟨0, 50, [], 0, true⟩).next.nonce
      = (initState [1, 2, 3, 4] (2 ^ 32 - 1)).nonce + 1) := by
  refine ⟨by decide, by decide⟩

/-- C5 (amended): within a round, on every dispatch whose lane result is
zero the nonce advances by exactly 1 **modulo `2^32`** (so it strictly
increases by 1 except when wrapping from `2^32 - 1` to 0), while the run
segment and the 4-byte message buffer are unchanged. -/
theorem c5_zero_lane_nonce (cfg : Config) :
    ∀ (inputs : List DispatchInput) (s : LoopState),
      (∀ inp ∈ inputs, inp.lane = 0) → ∀ i, i < inputs.length →
      (((runLoop cfg s inputs).map fun e => e.out.next.nonce).getD i 0
        = ((((runLoop cfg s inputs).map fun e => e.pre.nonce).getD i 0) + 1) % 2 ^ 32)
      ∧ (((runLoop cfg s inputs).map fun e => e.out.next.salt).getD i []
        = ((runLoop cfg s inputs).map fun e => e.pre.salt).getD i [])
      ∧ (((runLoop cfg s inputs).map fun e => e.out.next.msgBuf).getD i []
        = ((runLoop cfg s inputs).map fun e => e.pre.msgBuf).getD i []) := by
  intro inputs
  induction inputs with
  | nil => intro s _ i h; simp at h
  | cons inp rest ih =>
    intro s hz i hi
    have hl : inp.lane = 0 := hz inp (by simp)
    match i with
    | 0 => refine ⟨?_, ?_, ?_⟩ <;> simp [runLoop, step, hl]
    | (j + 1) =>
      simp only [runLoop, List.map_cons, List.getD_cons_succ]
      exact ih _ (fun x hx => hz x (by simp [hx])) j (by simpa using hi)

/-- C5 (witness): the amended transition at a concrete zero-lane dispatch. -/
theorem c5_zero_lane_nonce_witness :
    (∀ inp ∈ ([⟨0, 50, [], 0, true⟩] : List DispatchInput), inp.lane = 0)
    ∧ 0 < ([⟨0, 50, [], 0, true⟩] : List DispatchInput).length
    ∧ (((runLoop cfgEx (initState [1, 2, 3, 4] 5) [⟨0, 50, [], 0, true⟩]).map
          fun e => e.out.next.nonce).getD 0 0
      = ((((runLoop cfgEx (initState [1, 2, 3, 4] 5) [⟨0, 50, [], 0, true⟩]).map
          fun e => e.pre.nonce).getD 0 0) + 1) % 2 ^ 32) :=
  ⟨by decide, by decide,
    (c5_zero_lane_nonce cfgEx [⟨0, 50, [], 0, true⟩]
      (initState [1, 2, 3, 4] 5) (by decide) 0 (by decide)).1⟩

/-- C6 (counterexample): nothing stops the RNG from redrawing the previous
run segment — in a run where the fresh draw after a found solution equals
the ended round's segment, a later round's dispatch does run with the prior
round's run segment, refuting "never reused". -/
theorem c6_counterexample :
    ¬ claimC6noReuse cfgEx (initState [1, 2, 3, 4] 5)
      [⟨7, 10, [1, 2, 3, 4], 6, true⟩, ⟨0, 10, [9, 9, 9, 9], 0, true⟩] := by
  unfold claimC6noReuse
  decide

/-- C6 (amended): a dispatch with a non-zero lane result emits exactly that
one result as the round's solution, and the next state starts a new round
whose run segment, message buffer and nonce come from the fresh RNG draws
(the prior round's segment is not carried over; it can recur only if the
RNG independently draws the same 4 bytes). -/
theorem c6_new_round (cfg : Config) (s : LoopState) (inp : DispatchInput)
    (h : inp.lane ≠ 0) :
    (step cfg s inp).report = some (mkReport cfg s.salt inp.lane)
    ∧ (step cfg s inp).next.salt = inp.freshSalt
    ∧ (step cfg s inp).next.msgBuf = inp.freshSalt
    ∧ (step cfg s inp).next.nonce = inp.freshNonce % 2 ^ 32 := by
  simp [step, h]

/-- C6 (witness): the amended round transition at a concrete found
dispatch. -/
theorem c6_new_round_witness :
    (7 : Nat) ≠ 0
    ∧ (step cfgEx (initState [1, 2, 3, 4] 5) ⟨7, 10, [6, 7, 8, 9], 11, true⟩).next.salt
      = [6, 7, 8, 9]
    ∧ (step cfgEx (initState [1, 2, 3, 4] 5) ⟨7, 10, [6, 7, 8, 9], 11, true⟩).next.nonce
      = 11 % 2 ^ 32 :=
  ⟨by decide,
    (c6_new_round cfgEx (initState [1, 2, 3, 4] 5)
      ⟨7, 10, [6, 7, 8, 9], 11, true⟩ (by decide)).2.1,
    (c6_new_round cfgEx (initState [1, 2, 3, 4] 5)
      ⟨7, 10, [6, 7, 8, 9], 11, true⟩ (by decide)).2.2.2⟩

/-- C7: a failed HTTP send only produces a log line — the successor state,
the emitted payload and the sleep are identical to those of a successful
send, and no error leaves the loop (the logged field is the only
difference, and a successful send logs nothing). -/
theorem c7_send_failure_isolated (cfg : Config) (s : LoopState)
    (inp : DispatchInput) :
    (step cfg s { inp with sendOk := false }).next
      = (step cfg s { inp with sendOk := true }).next
    ∧ (step cfg s { inp with sendOk := false }).report
      = (step cfg s { inp with sendOk := true }).report
    ∧ (step cfg s { inp with sendOk := false }).sleep
      = (step cfg s { inp with sendOk := true }).sleep
    ∧ (inp.lane ≠ 0 →
        (step cfg s { inp with sendOk := false }).logged = some sendFailLog)
    ∧ (step cfg s { inp with sendOk := true }).logged = none := by
  by_cases h : inp.lane ≠ 0 <;> simp [step, h]

/-- C7 (witness): send-failure isolation at a concrete found dispatch. -/
theorem c7_send_failure_isolated_witness :
    (step cfgEx (initState [1, 2, 3, 4] 5) ⟨7, 10, [6, 7, 8, 9], 11, false⟩).next
      = (step cfgEx (initState [1, 2, 3, 4] 5) ⟨7, 10, [6, 7, 8, 9], 11, true⟩).next
    ∧ (step cfgEx (initState [1, 2, 3, 4] 5) ⟨7, 10, [6, 7, 8, 9], 11, false⟩).logged
      = some sendFailLog :=
  ⟨(c7_send_failure_isolated cfgEx (initState [1, 2, 3, 4] 5)
      ⟨7, 10, [6, 7, 8, 9], 11, true⟩).1,
    (c7_send_failure_isolated cfgEx (initState [1, 2, 3, 4] 5)
      ⟨7, 10, [6, 7, 8, 9], 11, true⟩).2.2.2.1 (by decide)⟩

set_option maxRecDepth 100000 in
/-- Known-answer test pinning the keccak embedding: the keccak-256 digest of
the empty string. -/
theorem keccak256_nil_vector :
    keccak256 [] =
      [0xc5, 0xd2, 0x46, 0x01, 0x86, 0xf7, 0x23, 0x3c,
       0x92, 0x7e, 0x7d, 0xb2, 0xdc, 0xc7, 0x03, 0xc0,
       0xe5, 0x00, 0xb6, 0x53, 0xca, 0x82, 0x27, 0x3b,
       0x7b, 0xfa, 0xd8, 0x04, 0x5d, 0x85, 0xa4, 0x70] := by decide

set_option maxRecDepth 100000 in
/-- Known-answer test pinning the keccak embedding: the keccak-256 digest of
the ASCII string `abc`. -/
theorem keccak256_abc_vector :
    keccak256 [0x61, 0x62, 0x63] =
      [0x4e, 0x03, 0x65, 0x7a, 0xea, 0x45, 0xa9, 0x4f,
       0xc7, 0xd4, 0x7b, 0xa8, 0x26, 0xc8, 0xd6, 0x67,
       0xc0, 0xd1, 0xe6, 0xe3, 0x3a, 0x64, 0xa0, 0x36,
       0xec, 0x44, 0xf5, 0x8f, 0xa1, 0x2d, 0x6c, 0x45] := by decide
